import Mathlib

/-!
Verification development for the PDF-chat repository.

The JavaScript source is shallowly embedded: strings become `List Char`,
JS numbers used as non-negative counters become `Nat`, fallible code
returns `Except Err` and external effects (Snowflake SQL, object store,
HTTP fetch, Cortex embedding/completion) are passed in as explicit
oracle parameters.  Every definition is transcribed from the source
file and line it names in its doc comment.
-/

set_option maxRecDepth 4000

/-- Strings are modelled as lists of characters. -/
abbrev Str := List Char

/-- Membership of a character in the JavaScript regex class matched by
"backslash s" (the whitespace class used by the source regexes and by
String.prototype.trim), by code point. -/
def isJsWs (c : Char) : Bool :=
  [32, 9, 10, 11, 12, 13, 160, 5760, 8192, 8193, 8194, 8195, 8196, 8197,
   8198, 8199, 8200, 8201, 8202, 8232, 8233, 8239, 8287, 12288, 65279].contains c.toNat

/-- JavaScript line terminators, which the regex dot does not match. -/
def isLineTerminator (c : Char) : Bool :=
  [10, 13, 8232, 8233].contains c.toNat

/-- Character class [0-9a-fA-F] (the hex class of the legacy uuid regex,
which carries the i flag). -/
def isHexDigit (c : Char) : Bool :=
  (48 ≤ c.toNat && c.toNat ≤ 57) || (97 ≤ c.toNat && c.toNat ≤ 102) ||
    (65 ≤ c.toNat && c.toNat ≤ 70)

/-- Character class matched by backslash-w in JS regexes: [A-Za-z0-9_]. -/
def isWordCharJs (c : Char) : Bool :=
  (48 ≤ c.toNat && c.toNat ≤ 57) || (97 ≤ c.toNat && c.toNat ≤ 122) ||
    (65 ≤ c.toNat && c.toNat ≤ 90) || c.toNat = 95

/-- JavaScript String.prototype.trim: drop whitespace from both ends. -/
def jsTrim (l : Str) : Str :=
  ((l.dropWhile isJsWs).reverse.dropWhile isJsWs).reverse

/-- Auxiliary scanner for the global regex replace of whitespace runs:
the Bool flag records whether the previous character was inside a
whitespace run still being replaced. -/
def collapseWsAux (rep : Char) : Bool → Str → Str
  | _, [] => []
  | inRun, c :: rest =>
    if isJsWs c then
      if inRun then collapseWsAux rep true rest
      else rep :: collapseWsAux rep true rest
    else c :: collapseWsAux rep false rest

/-- JavaScript s.replace(regex of one-or-more whitespace, global, rep):
every maximal whitespace run becomes the single character rep. -/
def collapseWs (rep : Char) (l : Str) : Str := collapseWsAux rep false l

/-- JavaScript String.prototype.split with a single-character separator. -/
def splitOnChar (sep : Char) : Str → List Str
  | [] => [[]]
  | c :: rest =>
    let r := splitOnChar sep rest
    if c = sep then [] :: r
    else
      match r with
      | [] => [[c]]
      | h :: t => (c :: h) :: t

/-- Truthiness of an optional JS string: undefined and the empty string
are falsy. -/
def truthy (o : Option Str) : Bool := !(o.getD []).isEmpty

/-- JavaScript String.prototype.includes: substring containment. -/
def jsIncludes (needle hay : Str) : Bool := decide (needle <:+: hay)

/-! ## Chunker (server/lib/pdf.cjs, chunkPageText lines 6-40) -/

/-- One emitted chunk record (pdf.cjs lines 22-29). -/
structure Chunk where
  chunkIndex : Nat
  pageNumber : Nat
  rawText : Str
  normalizedText : Str
  pageCharStart : Nat
  pageCharEnd : Nat
deriving DecidableEq, Repr

/-- Effective overlap, pdf.cjs line 15:
Math.min(chunkOverlap, Math.max(chunkSize - 1, 0)); the JS
Math.max(chunkSize - 1, 0) is exactly Nat truncated subtraction. -/
def effOverlap (chunkSize chunkOverlap : Nat) : Nat :=
  min chunkOverlap (chunkSize - 1)

/-- The while-loop of chunkPageText (pdf.cjs lines 17-37), with an
explicit fuel argument bounding the number of iterations; none means the
fuel was exhausted before the loop exited by itself (for chunkSize = 0
and non-empty text the JS loop indeed never exits).  The cursor update
Math.max(chunkEnd - overlap, 0) is Nat truncated subtraction. -/
def chunkLoop (text : Str) (chunkSize overlap pageNumber : Nat) :
    Nat → Nat → Nat → Option (List Chunk)
  | 0, _, _ => none
  | fuel + 1, cursor, chunkIndex =>
    if cursor < text.length then
      let chunkEnd := min (cursor + chunkSize) text.length
      let rawSlice := (text.drop cursor).take (chunkEnd - cursor)
      let normalized := jsTrim (collapseWs ' ' rawSlice)
      let emitted : List Chunk :=
        if 0 < normalized.length then
          [⟨chunkIndex, pageNumber, rawSlice, normalized, cursor, chunkEnd⟩]
        else []
      let nextIndex := if 0 < normalized.length then chunkIndex + 1 else chunkIndex
      if text.length ≤ chunkEnd then some emitted
      else
        match chunkLoop text chunkSize overlap pageNumber fuel (chunkEnd - overlap) nextIndex with
        | none => none
        | some rest => some (emitted ++ rest)
    else some []

/-- chunkPageText (pdf.cjs lines 6-40).  The empty-text early return is
line 9; the initial fuel text.length + 1 is enough for the loop to
reach its own exit whenever chunkSize ≥ 1 (proved below). -/
def chunkPageText (text : Str) (pageNumber chunkSize chunkOverlap startIndexOffset : Nat) :
    Option (List Chunk) :=
  if text.length = 0 then some []
  else
    chunkLoop text chunkSize (effOverlap chunkSize chunkOverlap) pageNumber
      (text.length + 1) 0 startIndexOffset

/-! ## Errors and caller-input sanitizers (server/index.cjs lines 44-77) -/

/-- A thrown Error, carrying the optional statusCode the handlers attach. -/
structure Err where
  message : Str
  statusCode : Option Nat
deriving DecidableEq, Repr

/-- Predicate for the identifier grammar regex of index.cjs line 44:
one or more characters from the class of word characters, dot, dash,
slash and space, anchored at both ends. -/
def identifierPattern (l : Str) : Bool :=
  !l.isEmpty && l.all fun c =>
    isWordCharJs c || c = '.' || c = '-' || c = '/' || c = ' '

/-- Message of the unsupported-characters rejection (index.cjs line 50). -/
def identifierCharsMsg : Str :=
  ("Identifier contains unsupported characters. " ++
    "Use alphanumerics, \"/\", \".\", \"-\", \"_\" or spaces.").toList

/-- Message of the path-traversal rejection (index.cjs line 57). -/
def identifierDotDotMsg : Str :=
  ("Identifier cannot contain \"..\" sequences.").toList

/-- sanitizeIdentifier (index.cjs lines 46-63): trim, reject when the
pattern fails or when any ".." substring occurs, both with status 400. -/
def sanitizeIdentifier (identifier : Str) : Except Err Str :=
  let trimmed := jsTrim identifier
  if !identifierPattern trimmed then
    .error ⟨identifierCharsMsg, some 400⟩
  else if jsIncludes ['.', '.'] trimmed then
    .error ⟨identifierDotDotMsg, some 400⟩
  else
    .ok trimmed

/-- Predicate for the stage-reference regex of index.cjs line 70: an
optional leading at-sign followed by one or more word or dot characters. -/
def stagePattern (l : Str) : Bool :=
  let body := match l with
    | '@' :: rest => rest
    | other => other
  !body.isEmpty && body.all fun c => isWordCharJs c || c = '.'

/-- sanitizeStageReference (index.cjs lines 65-77).  The module constant
STAGE_REFERENCE is threaded in as the parameter SR; an undefined or
blank reference falls back to it, a valid reference is prefixed with the
at-sign marker when absent, anything else is rejected with status 400. -/
def sanitizeStageReference (SR : Str) (reference : Option Str) : Except Err Str :=
  let trimmed := jsTrim (reference.getD [])
  if trimmed.isEmpty then .ok SR
  else if stagePattern trimmed then
    .ok (if trimmed.head? = some '@' then trimmed else '@' :: trimmed)
  else
    .error ⟨("Stage reference contains unsupported characters.").toList, some 400⟩

/-! ## Filename sanitizer (server/lib/workflows.cjs lines 11-20) -/

/-- ASCII uppercase test (the only code points toLowerCase can leave in
the allowed class are ASCII). -/
def isAsciiUpper (c : Char) : Bool := 65 ≤ c.toNat && c.toNat ≤ 90

/-- JavaScript String.prototype.toLowerCase restricted to the ASCII case
map; the exotic Unicode casings never produce characters the subsequent
replacement keeps, so the composition below is unaffected. -/
def jsToLower (c : Char) : Char :=
  if 65 ≤ c.toNat && c.toNat ≤ 90 then Char.ofNat (c.toNat + 32) else c

/-- Character class [a-z0-9.\-_ ] of workflows.cjs line 17, taken
case-insensitively because the replace carries the gi flags. -/
def filenameAllowed (c : Char) : Bool :=
  (97 ≤ c.toNat && c.toNat ≤ 122) || (48 ≤ c.toNat && c.toNat ≤ 57) ||
    (65 ≤ c.toNat && c.toNat ≤ 90) ||
    c = '.' || c = '-' || c = '_' || c = ' '

/-- The fixed filename fallback (workflows.cjs line 12). -/
def fallbackFilename : Str := ("document.pdf").toList

/-- sanitizeFilename (workflows.cjs lines 11-20).  A missing or
non-string input is the none case; the empty string is falsy and also
hits the fallback. -/
def sanitizeFilename (filename : Option Str) : Str :=
  match filename with
  | none => fallbackFilename
  | some s =>
    if s.isEmpty then fallbackFilename
    else
      let trimmed := (jsTrim s).map jsToLower
      let safe := collapseWs '-'
        (trimmed.map fun c => if filenameAllowed c then c else '-')
      let finalName := if safe.isEmpty then fallbackFilename else safe
      if List.isSuffixOf ['.', 'p', 'd', 'f'] finalName then finalName
      else finalName ++ ['.', 'p', 'd', 'f']

/-! ## Identifier resolver (server/index.cjs lines 121-213) -/

/-- The known-document pointer assembled by fetchDocumentPointer
(index.cjs lines 96-119); fileId and filename always end up truthy
there, stagePath and stageReference may be null. -/
structure Pointer where
  fileId : Str
  filename : Str
  stagePath : Option Str
  stageReference : Option Str
deriving DecidableEq, Repr

/-- One resolution candidate: a relative storage key plus the stage it
lives under (index.cjs line 176). -/
structure Candidate where
  identifier : Str
  stageReference : Str
deriving DecidableEq, Repr

/-- Consume exactly n hex digits from the front of a string, returning
them and the remainder. -/
def takeHex (n : Nat) (l : Str) : Option (Str × Str) :=
  let h := l.take n
  if h.length = n && h.all isHexDigit then some (h, l.drop n) else none

/-- Consume a single dash from the front of a string. -/
def expectDash (l : Str) : Option Str :=
  match l with
  | c :: rest => if c = '-' then some rest else none
  | [] => none

/-- The anchored LEGACY_FLAT_IDENTIFIER regex of index.cjs line 121:
^([0-9a-f]{8}-[0-9a-f]{4}-[0-9a-f]{4}-[0-9a-f]{4}-[0-9a-f]{12})-(.+)$
with the i flag; returns the captured (uuid, restOfFilename) pair.  The
final group is one-or-more dots, so it must be non-empty and free of
line terminators, which the JS dot never matches. -/
def matchLegacyFlat (tail : Str) : Option (Str × Str) :=
  match takeHex 8 tail with
  | none => none
  | some (h1, r1) =>
  match expectDash r1 with
  | none => none
  | some r1b =>
  match takeHex 4 r1b with
  | none => none
  | some (h2, r2) =>
  match expectDash r2 with
  | none => none
  | some r2b =>
  match takeHex 4 r2b with
  | none => none
  | some (h3, r3) =>
  match expectDash r3 with
  | none => none
  | some r3b =>
  match takeHex 4 r3b with
  | none => none
  | some (h4, r4) =>
  match expectDash r4 with
  | none => none
  | some r4b =>
  match takeHex 12 r4b with
  | none => none
  | some (h5, r5) =>
  match expectDash r5 with
  | none => none
  | some rest =>
    if rest.isEmpty || rest.any isLineTerminator then none
    else
      some (h1 ++ '-' :: h2 ++ '-' :: h3 ++ '-' :: h4 ++ '-' :: h5, rest)

/-- extractLegacyTailInfo (index.cjs lines 123-136): take the last
non-empty path segment of the trimmed identifier and match it against
the legacy flat pattern.  The split-filter-pop pipeline of line 127 is
the splitOnChar, filter, getLast? chain. -/
def extractLegacyTailInfo (identifier : Str) : Option (Str × Str) :=
  if identifier.isEmpty then none
  else
    match ((splitOnChar '/' (jsTrim identifier)).filter fun s => !s.isEmpty).getLast? with
    | none => none
    | some tail => if tail.isEmpty then none else matchLegacyFlat tail

/-- The trailing-slash strip of index.cjs line 142, regex slash+$. -/
def dropTrailingSlashes (l : Str) : Str :=
  (l.reverse.dropWhile fun c => c = '/').reverse

/-- JavaScript a || b on a possibly missing string: the left side wins
only when it is truthy. -/
def orTruthy (a : Option Str) (b : Str) : Str :=
  match a with
  | some s => if s.isEmpty then b else s
  | none => b

/-- buildLegacyCandidateIdentifier (index.cjs lines 138-160): for a
slash-containing identifier not already ending in the legacy combined
suffix, append fileId-filename, with the last two path segments as the
fallback id and name when no pointer is known. -/
def buildLegacyCandidateIdentifier (identifier : Str) (pointer : Option Pointer) :
    Option Str :=
  if identifier.isEmpty then none
  else
    let trimmed := dropTrailingSlashes (jsTrim identifier)
    if !jsIncludes ['/'] trimmed then none
    else
      let segments := splitOnChar '/' trimmed
      if segments.length < 2 then none
      else
        let fallbackId := orTruthy (pointer.map Pointer.fileId)
          (segments.getD (segments.length - 2) [])
        let fallbackName := orTruthy (pointer.map Pointer.filename)
          (segments.getD (segments.length - 1) [])
        if fallbackId.isEmpty || fallbackName.isEmpty then none
        else
          let legacySuffix := fallbackId ++ '-' :: fallbackName
          if List.isSuffixOf ('/' :: legacySuffix) trimmed then none
          else some (trimmed ++ '/' :: legacySuffix)

/-- State of the closure in buildStageCandidates: the accumulated list
plus the seen set of dedup keys (index.cjs lines 163-164). -/
structure ResolverState where
  candidates : List Candidate
  seen : List Str
deriving DecidableEq, Repr

/-- The dedup key of index.cjs line 171: resolvedStage::trimmed. -/
def candidateKey (stageRef identifier : Str) : Str :=
  stageRef ++ ':' :: ':' :: identifier

/-- addCandidate (index.cjs lines 166-177).  A failing stage-reference
sanitization propagates as the thrown client error. -/
def addCandidate (SR : Str) (defaultStage : Str) (st : ResolverState)
    (identifier : Option Str) (stageRef : Option Str) : Except Err ResolverState :=
  match identifier with
  | none => .ok st
  | some id =>
    let trimmed := jsTrim id
    if trimmed.isEmpty then .ok st
    else
      match sanitizeStageReference SR (some (stageRef.getD defaultStage)) with
      | .error e => .error e
      | .ok resolvedStage =>
        let key := candidateKey resolvedStage trimmed
        if st.seen.contains key then .ok st
        else
          .ok ⟨st.candidates ++ [⟨trimmed, resolvedStage⟩], st.seen ++ [key]⟩

/-- addCanonicalVariants (index.cjs lines 179-186): the canonical
fileId/filename key followed by its nested-legacy sibling. -/
def addCanonicalVariants (SR : Str) (defaultStage : Str) (st : ResolverState)
    (fileId filename : Str) (stageRef : Option Str) : Except Err ResolverState :=
  if fileId.isEmpty || filename.isEmpty then .ok st
  else
    let canonical := fileId ++ '/' :: filename
    match addCandidate SR defaultStage st (some canonical) stageRef with
    | .error e => .error e
    | .ok st2 =>
      addCandidate SR defaultStage st2
        (some (canonical ++ '/' :: (fileId ++ '-' :: filename))) stageRef

/-- The request-identifier block of buildStageCandidates (index.cjs
lines 188-198): the verbatim identifier, its legacy combined variant,
and the canonical pair inferred from a legacy flat tail. -/
def resolverRequestBlock (SR defaultStage : Str) (pointer : Option Pointer)
    (requestIdentifier requestStage : Option Str) (st : ResolverState) :
    Except Err ResolverState :=
  if truthy requestIdentifier then
    let rid := requestIdentifier.getD []
    match addCandidate SR defaultStage st (some rid) requestStage with
    | .error e => .error e
    | .ok st1 =>
      let afterLegacy :=
        match buildLegacyCandidateIdentifier rid pointer with
        | some legacyFromRequest =>
          addCandidate SR defaultStage st1 (some legacyFromRequest) requestStage
        | none => .ok st1
      match afterLegacy with
      | .error e => .error e
      | .ok st2 =>
        match extractLegacyTailInfo rid with
        | some (fid, fname) => addCanonicalVariants SR defaultStage st2 fid fname requestStage
        | none => .ok st2
  else .ok st

/-- The pointer stage-path block of buildStageCandidates (index.cjs
lines 200-206): the stored stagePath verbatim plus its legacy variant. -/
def resolverPointerPathBlock (SR defaultStage : Str) (pointer : Option Pointer)
    (st : ResolverState) : Except Err ResolverState :=
  match pointer with
  | some p =>
    if truthy p.stagePath then
      match addCandidate SR defaultStage st p.stagePath p.stageReference with
      | .error e => .error e
      | .ok st1 =>
        match buildLegacyCandidateIdentifier (p.stagePath.getD []) pointer with
        | some legacyFromPointer =>
          addCandidate SR defaultStage st1 (some legacyFromPointer) p.stageReference
        | none => .ok st1
    else .ok st
  | none => .ok st

/-- The pointer canonical block of buildStageCandidates (index.cjs
lines 208-210). -/
def resolverPointerCanonicalBlock (SR defaultStage : Str) (pointer : Option Pointer)
    (st : ResolverState) : Except Err ResolverState :=
  match pointer with
  | some p =>
    if !p.fileId.isEmpty && !p.filename.isEmpty then
      addCanonicalVariants SR defaultStage st p.fileId p.filename p.stageReference
    else .ok st
  | none => .ok st

/-- buildStageCandidates (index.cjs lines 162-213).  SR is the module
constant STAGE_REFERENCE; the default stage of line 165 is the
pointer's stage reference, else the request stage, else SR. -/
def buildStageCandidates (SR : Str) (pointer : Option Pointer)
    (requestIdentifier requestStage : Option Str) : Except Err (List Candidate) :=
  let defaultStage := ((pointer.bind Pointer.stageReference).or requestStage).getD SR
  match resolverRequestBlock SR defaultStage pointer requestIdentifier requestStage ⟨[], []⟩ with
  | .error e => .error e
  | .ok st1 =>
    match resolverPointerPathBlock SR defaultStage pointer st1 with
    | .error e => .error e
    | .ok st2 =>
      match resolverPointerCanonicalBlock SR defaultStage pointer st2 with
      | .error e => .error e
      | .ok st3 => .ok st3.candidates

/-! ## Streaming resolver (server/index.cjs lines 215-302) -/

/-- The response assembled on the first successful candidate: the
headers set at index.cjs lines 260-268 plus the streamed body. -/
structure StreamResponse where
  downloadName : Str
  fileIdHeader : Option Str
  stagePathHeader : Str
  stageReferenceHeader : Str
  body : Str
deriving DecidableEq, Repr

/-- The generic exhaustion error of index.cjs line 301. -/
def unableToRetrieveMsg : Str :=
  ("Unable to retrieve PDF from Snowflake stage. " ++
    "Double-check the identifier and try again.").toList

/-- One attempt of the candidate loop body (index.cjs lines 249-291):
createPresignedUrl sanitizes the stage reference and the identifier
(lines 216-217) and the external presign-plus-fetch is the oracle world,
which returns the PDF bytes or the thrown failure (bad presign row,
non-success HTTP status or missing body).  On success the provenance
headers carry the sanitized identifier and stage of this candidate. -/
def attemptCandidate (SR : Str) (world : Candidate → Except Err Str)
    (pointer : Option Pointer) (c : Candidate) : Except Err StreamResponse :=
  match sanitizeStageReference SR (some c.stageReference) with
  | .error e => .error e
  | .ok stageRef =>
    match sanitizeIdentifier c.identifier with
    | .error e => .error e
    | .ok safeIdentifier =>
      match world ⟨safeIdentifier, stageRef⟩ with
      | .error e => .error e
      | .ok body =>
        .ok { downloadName :=
                orTruthy (pointer.map Pointer.filename)
                  (orTruthy ((splitOnChar '/' safeIdentifier).getLast?) fallbackFilename)
              fileIdHeader := pointer.map Pointer.fileId
              stagePathHeader := safeIdentifier
              stageReferenceHeader := stageRef
              body := body }

/-- The for-loop over stage candidates (index.cjs lines 247-301): try
each candidate in order, record the error on failure, return the first
success, and after exhaustion surface the last recorded error or the
generic unable-to-retrieve error when none was recorded. -/
def streamCandidates (SR : Str) (world : Candidate → Except Err Str)
    (pointer : Option Pointer) :
    List Candidate → Option Err → Except Err StreamResponse
  | [], lastError => .error (lastError.getD ⟨unableToRetrieveMsg, none⟩)
  | c :: rest, _lastError =>
    match attemptCandidate SR world pointer c with
    | .ok r => .ok r
    | .error e => streamCandidates SR world pointer rest (some e)

/-- streamPdfToResponse (index.cjs lines 235-302): build the candidate
list from the pointer and the request, reject an empty list, then run
the candidate loop.  The document lookup by fileId is the external
pointer parameter. -/
def streamPdfToResponse (SR : Str) (world : Candidate → Except Err Str)
    (pointer : Option Pointer) (identifier stageReference : Option Str) :
    Except Err StreamResponse := do
  let stageCandidates ← buildStageCandidates SR pointer identifier stageReference
  if stageCandidates.isEmpty then
    .error ⟨("Document identifier is missing.").toList, none⟩
  else
    streamCandidates SR world pointer stageCandidates none

/-! ## Completion extraction (server/lib/workflows.cjs lines 233-266) -/

/-- A fragment of an array-valued content field: either a plain string
element or an object whose text property may be missing or falsy
(workflows.cjs lines 245 and 261). -/
inductive Frag where
  | fstr (s : Str)
  | fobj (text : Option Str)
deriving DecidableEq, Repr

/-- The content reached through choices[0].message.content: a string, an
array of fragments, or anything else (absent message, absent content, or
a shape the two inner branches do not recognize). -/
inductive ChoiceContent where
  | cstr (s : Str)
  | carr (l : List Frag)
  | cnone
deriving DecidableEq, Repr

/-- The top-level content field of the completion object: a string, an
array of fragments, or absent-or-unrecognized. -/
inductive TopContent where
  | tstr (s : Str)
  | tarr (l : List Frag)
  | tnone
deriving DecidableEq, Repr

/-- The response field: a string, or absent-or-non-string. -/
inductive RespField where
  | rstr (s : Str)
  | rnone
deriving DecidableEq, Repr

/-- A completion-function result value: null, a plain string, an object
carrying the three probed members, or any other runtime type. -/
inductive JsCompletion where
  | jnull
  | jstr (s : Str)
  | jobj (choices : Option (List ChoiceContent)) (response : RespField) (content : TopContent)
  | jother
deriving DecidableEq, Repr

/-- The text of one fragment as read in the choices branch
(workflows.cjs line 245): chunk.text || empty. -/
def fragTextChoices (f : Frag) : Str :=
  match f with
  | .fstr _ => []
  | .fobj t => t.getD []

/-- The text of one fragment as read in the content branch
(workflows.cjs line 261): a string chunk itself, else chunk.text || empty. -/
def fragTextContent (f : Frag) : Str :=
  match f with
  | .fstr s => s
  | .fobj t => t.getD []

/-- The choices probe of workflows.cjs lines 241-251: requires a
non-empty choices array whose first message content is truthy; returns
none when the branch falls through to the response probe. -/
def choicesExtract (choices : Option (List ChoiceContent)) : Option Str :=
  match choices with
  | some (first :: _) =>
    match first with
    | .carr l => some (jsTrim ((l.map fragTextChoices).flatten))
    | .cstr s => if s.isEmpty then none else some (jsTrim s)
    | .cnone => none
  | _ => none

/-- extractCompletion (workflows.cjs lines 233-266). -/
def extractCompletion (value : JsCompletion) : Str :=
  match value with
  | .jnull => []
  | .jstr s => jsTrim s
  | .jother => []
  | .jobj choices response content =>
    match choicesExtract choices with
    | some r => r
    | none =>
      match response with
      | .rstr s => jsTrim s
      | .rnone =>
        match content with
        | .tstr s => jsTrim s
        | .tarr l => jsTrim ((l.map fragTextContent).flatten)
        | .tnone => []

/-! ## Stage-path helpers (server/lib/workflows.cjs lines 29-65) -/

/-- First index at which a needle substring occurs (JS String.indexOf). -/
def indexOfSub (needle : Str) : Str → Option Nat
  | [] => if needle.isEmpty then some 0 else none
  | c :: rest =>
    if List.isPrefixOf needle (c :: rest) then some 0
    else (indexOfSub needle rest).map (· + 1)

/-- JS a || b over possibly missing strings: left wins when truthy. -/
def orElseTruthy (a b : Option Str) : Option Str :=
  if truthy a then a else b

/-- extractRelativeStagePath (workflows.cjs lines 29-50): strip a
leading at-stage prefix or a protocol-plus-host prefix, keeping the
relative key after the first slash. -/
def extractRelativeStagePath (value : Option Str) : Option Str :=
  match value with
  | none => none
  | some v =>
    if v.isEmpty then none
    else
      let normalized := jsTrim v
      if normalized.isEmpty then none
      else if normalized.head? = some '@' then
        match normalized.findIdx? (fun c => c = '/') with
        | some slashIndex => some (normalized.drop (slashIndex + 1))
        | none => none
      else
        match indexOfSub [':', '/', '/'] normalized with
        | some protocolIndex =>
          match (normalized.drop (protocolIndex + 3)).findIdx? (fun c => c = '/') with
          | some j => some (normalized.drop (protocolIndex + 3 + j + 1))
          | none => none
        | none => some normalized

/-- extractStageReferenceFromPath (workflows.cjs lines 52-65): the
at-prefixed stage segment before the first slash, when present. -/
def extractStageReferenceFromPath (value : Option Str) : Option Str :=
  match value with
  | none => none
  | some v =>
    if v.isEmpty then none
    else
      let trimmed := jsTrim v
      if trimmed.head? ≠ some '@' then none
      else
        match trimmed.findIdx? (fun c => c = '/') with
        | some slashIndex => some (trimmed.take slashIndex)
        | none => some trimmed

/-! ## Retrieval orchestrator (server/lib/workflows.cjs lines 204-343) -/

/-- The parsed SOURCE_META variant fields mapChunkRow reads; none plays
the role of the empty object parseSourceMeta falls back to.  Numeric
offsets and scores are modelled as integers; no claim depends on
fractional score arithmetic. -/
structure SourceMeta where
  stagePath : Option Str
  stageReference : Option Str
  charStart : Option Int
  charEnd : Option Int
deriving DecidableEq, Repr

/-- parseSourceMeta (workflows.cjs lines 204-217): an absent or
unparsable variant becomes the empty object. -/
def parseSourceMeta (meta : Option SourceMeta) : SourceMeta :=
  meta.getD ⟨none, none, none, none⟩

/-- One row of the similarity-search result set (the columns selected at
workflows.cjs lines 308-320); nullable columns are Options. -/
structure Row where
  chunkId : Str
  fileId : Str
  pageNumber : Int
  chunkIndex : Int
  chunkText : Str
  charStart : Option Int
  charEnd : Option Int
  sourceMeta : Option SourceMeta
  filename : Str
  stagePath : Option Str
  stageReference : Option Str
  relevance : Option Int
  score : Option Int
deriving DecidableEq, Repr

/-- The chunk projection returned to callers (mapChunkRow output,
workflows.cjs lines 268-287). -/
structure MappedChunk where
  chunkId : Str
  fileId : Str
  fileName : Str
  stagePath : Option Str
  stageReference : Str
  pageNumber : Int
  chunkIndex : Int
  text : Str
  relevance : Int
  highlightStart : Int
  highlightEnd : Int
deriving DecidableEq, Repr

/-- mapChunkRow (workflows.cjs lines 268-287); SR is the module constant
STAGE_REFERENCE ending the stage-reference fallback chain. -/
def mapChunkRow (SR : Str) (row : Row) : MappedChunk :=
  let meta := parseSourceMeta row.sourceMeta
  { chunkId := row.chunkId
    fileId := row.fileId
    fileName := row.filename
    stagePath := extractRelativeStagePath (orElseTruthy row.stagePath meta.stagePath)
    stageReference :=
      (orElseTruthy (orElseTruthy row.stageReference meta.stageReference)
        (extractStageReferenceFromPath (orElseTruthy row.stagePath meta.stagePath))).getD SR
    pageNumber := row.pageNumber
    chunkIndex := row.chunkIndex
    text := row.chunkText
    relevance := (row.relevance.or row.score).getD 0
    highlightStart := (row.charStart.or meta.charStart).getD 0
    highlightEnd := (row.charEnd.or meta.charEnd).getD 0 }

/-- The fixed instruction header of buildPrompt (workflows.cjs lines
221-222), including its verbatim citation example. -/
def promptHeader : Str :=
  ("You are an expert AI assistant that answers user questions strictly using the provided context snippets extracted from PDF documents.\n" ++
    "Cite the PDFs naturally (e.g., \"Page 2 Â· Quarterly Results\") when referencing a chunk. If the answer is not in context, say you do not know.").toList

/-- One context block of buildPrompt (workflows.cjs lines 224-227). -/
def chunkBlock (i : Nat) (c : MappedChunk) : Str :=
  ("Source ").toList ++ (toString (i + 1)).toList ++ (" | chunk_id=").toList ++ c.chunkId ++
    (" | page=").toList ++ (toString c.pageNumber).toList ++ (" | file=").toList ++ c.fileName ++
    '\n' :: c.text

/-- buildPrompt (workflows.cjs lines 219-231). -/
def buildPrompt (question : Str) (chunks : List MappedChunk) : Str :=
  let context := List.intercalate ['\n', '\n'] (chunks.enum.map fun p => chunkBlock p.1 p.2)
  promptHeader ++ ("\n\nContext:\n").toList ++ context ++
    ("\n\nQuestion: ").toList ++ question ++ '\n' :: ("Answer:").toList

/-- The LIMIT expression of the search query (workflows.cjs line 326). -/
def clampTopK (topK : Int) : Int := max 1 (min topK 10)

/-- The fixed zero-rows answer (workflows.cjs line 332). -/
def noRelevantMsg : Str := ("No relevant results found in the selected PDFs.").toList

/-- The fixed empty-completion fallback answer (workflows.cjs line 340). -/
def noAnswerMsg : Str := ("No answer generated.").toList

/-- Result of one query call, extended with the observation whether the
Cortex completion statement was executed at all. -/
structure QueryOutcome where
  answer : Str
  chunks : List MappedChunk
  completionCalled : Bool
deriving DecidableEq, Repr

/-- queryKnowledgeBase (workflows.cjs lines 289-343).  The similarity
search is external: searchRows is the row set the SQL of lines 304-329
returned (already filtered to fileIds and truncated to the clamped
topK by the database), and complete is the external Cortex completion
returning the RESPONSE value of line 337. -/
def queryKnowledgeBase (SR : Str) (question : Str) (fileIds : List Str) (topK : Int)
    (searchRows : List Row) (complete : Str → JsCompletion) : Except Err QueryOutcome :=
  if question.isEmpty || (jsTrim question).isEmpty then
    .error ⟨("Question cannot be empty.").toList, none⟩
  else
    let _ := fileIds
    let _ := clampTopK topK
    let chunks := searchRows.map (mapChunkRow SR)
    if chunks.isEmpty then
      .ok ⟨noRelevantMsg, [], false⟩
    else
      let prompt := buildPrompt question chunks
      let answer := extractCompletion (complete prompt)
      .ok ⟨if answer.isEmpty then noAnswerMsg else answer, chunks, true⟩

/-! ## Ingestion orchestrator (server/lib/workflows.cjs lines 151-202) -/

/-- Outcomes of the external steps one ingestion performs after
chunking: the stage upload (returning the store-assigned relative
path), the document row insert, and the chunk row inserts with their
embedding calls. -/
structure IngestOracles where
  chunkPdfResult : List Chunk
  uploadResult : Except Err Str
  persistDocumentResult : Except Err Unit
  persistChunksResult : Except Err Unit

/-- The summary ingestPdf returns (workflows.cjs lines 196-201). -/
structure IngestSummary where
  fileId : Str
  filename : Str
  stagePath : Str
  chunkCount : Nat
deriving DecidableEq, Repr

/-- Observable lifecycle of the scoped temporary file of one ingestion. -/
structure TempFileTrace where
  created : Bool
  removedAtExit : Bool
deriving DecidableEq, Repr

/-- cleanupTempFile (workflows.cjs lines 151-159): a falsy path is a
no-op, otherwise the containing scoped directory is removed recursively
and forcefully (failures are logged and swallowed, never thrown). -/
def cleanupTempFile (filePath : Option Str) (t : TempFileTrace) : TempFileTrace :=
  match filePath with
  | none => t
  | some _ => { t with removedAtExit := true }

/-- ingestPdf (workflows.cjs lines 161-202): sanitize the name, chunk,
fail on zero chunks before any temporary file exists, then create the
scoped temporary file and run upload, document persistence and chunk
persistence in dependency order inside a try whose finally always runs
cleanupTempFile; fileId is the freshly generated uuid. -/
def ingestPdf (originalName : Option Str) (fileId : Str) (o : IngestOracles) :
    Except Err IngestSummary × TempFileTrace :=
  let filename := sanitizeFilename originalName
  if o.chunkPdfResult.isEmpty then
    (.error ⟨("Unable to extract readable text from the PDF.").toList, none⟩, ⟨false, false⟩)
  else
    let tempFilePath : Option Str := some (fileId ++ '/' :: filename)
    let t : TempFileTrace := ⟨true, false⟩
    let body : Except Err Str := do
      let resolvedStagePath ← o.uploadResult
      let _ ← o.persistDocumentResult
      let _ ← o.persistChunksResult
      pure resolvedStagePath
    match body with
    | .ok resolvedStagePath =>
      (.ok ⟨fileId, filename, resolvedStagePath, o.chunkPdfResult.length⟩,
        cleanupTempFile tempFilePath t)
    | .error e => (.error e, cleanupTempFile tempFilePath t)

/-! ## Theorems -/

/-- C1: for page text "abcdefghijklmnop" (16 characters) with
chunkSize 10 and chunkOverlap 3, the chunker emits exactly two chunks:
the first with window 0 to 10 and raw text "abcdefghij", the second
(the cursor having moved to 7) with window 7 to 16 and raw text
"hijklmnop", and then the page loop stops because the end is reached
(the loop returns by its own break, not by fuel exhaustion). -/
theorem chunker_example_two_chunks :
    chunkPageText (("abcdefghijklmnop").toList) 1 10 3 0 =
      some
        [⟨0, 1, ("abcdefghij").toList, ("abcdefghij").toList, 0, 10⟩,
         ⟨1, 1, ("hijklmnop").toList, ("hijklmnop").toList, 7, 16⟩] := by
  decide

/-- Valid code points below the surrogate range round-trip Char.ofNat. -/
theorem char_toNat_ofNat (n : Nat) (h : n < 55296) : (Char.ofNat n).toNat = n := by
  have hv : n.isValidChar := Or.inl h
  simp only [Char.ofNat, hv, dif_pos, Char.ofNatAux, Char.toNat, UInt32.toNat]
  rw [BitVec.toNat_ofNatLt]

/-- The ASCII lowercase map never returns an ASCII uppercase letter. -/
theorem jsToLower_not_upper (c : Char) : isAsciiUpper (jsToLower c) = false := by
  unfold jsToLower isAsciiUpper
  split
  next h =>
    simp only [Bool.and_eq_true, decide_eq_true_eq] at h
    have hn : (Char.ofNat (c.toNat + 32)).toNat = c.toNat + 32 :=
      char_toNat_ofNat _ (by omega)
    simp only [hn]
    simp only [Bool.and_eq_false_iff, decide_eq_false_iff_not]
    omega
  next h =>
    simp only [Bool.and_eq_true, decide_eq_true_eq, not_and, not_le] at h
    simp only [Bool.and_eq_false_iff, decide_eq_false_iff_not]
    omega

/-- Characters of a whitespace-collapsed string come from the original
string or are the replacement character. -/
theorem mem_collapseWsAux (rep : Char) :
    ∀ (l : Str) (b : Bool) (c : Char), c ∈ collapseWsAux rep b l → c = rep ∨ c ∈ l := by
  intro l
  induction l with
  | nil => intro b c hc; simp [collapseWsAux] at hc
  | cons x xs ih =>
    intro b c hc
    unfold collapseWsAux at hc
    by_cases hw : isJsWs x
    · simp only [hw, if_true] at hc
      by_cases hb : b
      · subst hb
        simp only [if_true] at hc
        rcases ih true c hc with h | h
        · exact Or.inl h
        · exact Or.inr (List.mem_cons_of_mem _ h)
      · simp only [hb, if_false] at hc
        rcases List.mem_cons.mp hc with h | h
        · exact Or.inl h
        · rcases ih true c h with h2 | h2
          · exact Or.inl h2
          · exact Or.inr (List.mem_cons_of_mem _ h2)
    · simp only [hw, if_false] at hc
      rcases List.mem_cons.mp hc with h | h
      · exact Or.inr (h ▸ List.mem_cons_self x xs)
      · rcases ih false c h with h2 | h2
        · exact Or.inl h2
        · exact Or.inr (List.mem_cons_of_mem _ h2)

/-- A collapsed string (with the initial not-in-a-run flag) is empty
only when the input is empty. -/
theorem collapseWs_eq_nil (rep : Char) (l : Str) (h : collapseWs rep l = []) : l = [] := by
  cases l with
  | nil => rfl
  | cons x xs =>
    unfold collapseWs collapseWsAux at h
    by_cases hw : isJsWs x <;> simp [hw] at h

/-- Appending the pdf suffix when absent preserves non-emptiness, the
absence of uppercase letters, and yields the pdf suffix. -/
theorem pdfSuffix_props (f : Str) (hne : f ≠ [])
    (hup : ∀ c ∈ f, isAsciiUpper c = false) :
    (if List.isSuffixOf ['.', 'p', 'd', 'f'] f then f else f ++ ['.', 'p', 'd', 'f']).isEmpty = false ∧
    (if List.isSuffixOf ['.', 'p', 'd', 'f'] f then f else f ++ ['.', 'p', 'd', 'f']).all
      (fun c => !isAsciiUpper c) = true ∧
    List.isSuffixOf ['.', 'p', 'd', 'f']
      (if List.isSuffixOf ['.', 'p', 'd', 'f'] f then f else f ++ ['.', 'p', 'd', 'f']) = true := by
  by_cases hsf : List.isSuffixOf ['.', 'p', 'd', 'f'] f = true
  · refine ⟨?_, ?_, ?_⟩ <;> simp only [hsf, if_true]
    · simpa [List.isEmpty_iff] using hne
    · simp only [List.all_eq_true]
      intro c hc
      simp [hup c hc]
  · have hsf2 : List.isSuffixOf ['.', 'p', 'd', 'f'] f = false :=
      Bool.eq_false_iff.mpr hsf
    refine ⟨?_, ?_, ?_⟩ <;> simp only [hsf2, Bool.false_eq_true, if_false]
    · simp [List.isEmpty_iff]
    · simp only [List.all_eq_true]
      intro c hc
      rcases List.mem_append.mp hc with h | h
      · simp [hup c h]
      · fin_cases h <;> decide
    · rw [List.isSuffixOf_iff_suffix]
      exact List.suffix_append f _

/-- No character of the sanitized safe name is an uppercase letter. -/
theorem safe_chars_not_upper (s : Str) :
    ∀ c ∈ collapseWs '-'
      (((jsTrim s).map jsToLower).map fun c => if filenameAllowed c then c else '-'),
      isAsciiUpper c = false := by
  intro c hc
  rcases mem_collapseWsAux '-' _ false c hc with h | h
  · subst h; decide
  · rcases List.mem_map.mp h with ⟨c1, hc1, hfc⟩
    rcases List.mem_map.mp hc1 with ⟨c0, _, hl⟩
    subst hl
    by_cases ha : filenameAllowed (jsToLower c0) = true
    · rw [if_pos ha] at hfc
      exact hfc ▸ jsToLower_not_upper c0
    · rw [if_neg ha] at hfc
      subst hfc
      decide

/-- C10: for every input to filename sanitization, including a missing
or non-string value, the empty string, and strings whose characters are
all replaced, the result is a non-empty string with no uppercase letter
ending in ".pdf"; the fixed fallback "document.pdf" is returned when
the input is missing or reduces to nothing after trimming. -/
theorem sanitizeFilename_spec (input : Option Str) :
    (sanitizeFilename input).isEmpty = false ∧
    (sanitizeFilename input).all (fun c => !isAsciiUpper c) = true ∧
    List.isSuffixOf ['.', 'p', 'd', 'f'] (sanitizeFilename input) = true ∧
    sanitizeFilename none = fallbackFilename ∧
    (∀ s, jsTrim s = [] → sanitizeFilename (some s) = fallbackFilename) := by
  have htri : (sanitizeFilename input).isEmpty = false ∧
      (sanitizeFilename input).all (fun c => !isAsciiUpper c) = true ∧
      List.isSuffixOf ['.', 'p', 'd', 'f'] (sanitizeFilename input) = true := by
    cases input with
    | none => refine ⟨by decide, by decide, by decide⟩
    | some s =>
      by_cases hse : s.isEmpty = true
      · have hnil : s = [] := List.isEmpty_iff.mp hse
        subst hnil
        exact ⟨by decide, by decide, by decide⟩
      · simp only [sanitizeFilename]
        rw [if_neg hse]
        by_cases hsafe :
            (collapseWs '-'
              (((jsTrim s).map jsToLower).map fun c =>
                if filenameAllowed c then c else '-')).isEmpty = true
        · simp only [hsafe, if_true]
          exact pdfSuffix_props fallbackFilename (by decide) (by decide)
        · simp only [hsafe, Bool.false_eq_true, if_false]
          refine pdfSuffix_props _ ?_ (safe_chars_not_upper s)
          intro hnil
          rw [hnil] at hsafe
          exact hsafe rfl
  refine ⟨htri.1, htri.2.1, htri.2.2, rfl, ?_⟩
  intro s hs
  by_cases hse : s.isEmpty = true
  · have hnil : s = [] := List.isEmpty_iff.mp hse
    subst hnil
    decide
  · simp only [sanitizeFilename]
    rw [if_neg hse]
    simp only [hs]
    decide

/-- Witness for C10 at a concrete whitespace-only input. -/
theorem sanitizeFilename_spec_witness :
    sanitizeFilename (some [' ', '\t']) = fallbackFilename :=
  (sanitizeFilename_spec (some [' ', '\t'])).2.2.2.2 [' ', '\t'] (by decide)

/-- C6: identifier sanitization succeeds, returning the trimmed
identifier, exactly when the trimmed input matches the allowed pattern
and contains no ".." sequence; every other input is rejected with an
error carrying HTTP status 400, and rejection is the only failure
mode (every error has status 400 and every success is the trimmed
input). -/
theorem sanitizeIdentifier_spec (s : Str) :
    (sanitizeIdentifier s = .ok (jsTrim s) ↔
      identifierPattern (jsTrim s) = true ∧ jsIncludes ['.', '.'] (jsTrim s) = false) ∧
    (∀ e, sanitizeIdentifier s = .error e → e.statusCode = some 400) ∧
    (∀ r, sanitizeIdentifier s = .ok r → r = jsTrim s) := by
  unfold sanitizeIdentifier
  by_cases hp : identifierPattern (jsTrim s) = true
  · by_cases hd : jsIncludes ['.', '.'] (jsTrim s) = true
    · simp [hp, hd]
    · simp [hp, Bool.eq_false_iff.mpr hd]
  · simp only [Bool.eq_false_iff.mpr hp, Bool.not_false, if_true]
    refine ⟨by simp, ?_, ?_⟩
    · intro e he
      cases Except.error.inj he
      rfl
    · intro r hr
      exact Except.noConfusion hr

/-- Witness for C6: a well-formed identifier is accepted verbatim. -/
theorem sanitizeIdentifier_spec_witness :
    sanitizeIdentifier (("docs/report v2.pdf").toList) =
      .ok (jsTrim (("docs/report v2.pdf").toList)) :=
  (sanitizeIdentifier_spec (("docs/report v2.pdf").toList)).1.mpr (by decide)

/-- C8: for every non-empty question, when the similarity search
returns zero rows, query returns the fixed no-relevant-results answer
with an empty chunk list as a normal (non-error) result, and the
completion function is never invoked. -/
theorem queryKnowledgeBase_no_rows (SR question : Str) (fileIds : List Str) (topK : Int)
    (complete : Str → JsCompletion) (h : (jsTrim question).isEmpty = false) :
    queryKnowledgeBase SR question fileIds topK [] complete =
      .ok ⟨noRelevantMsg, [], false⟩ := by
  unfold queryKnowledgeBase
  have hq : (question.isEmpty || (jsTrim question).isEmpty) = false := by
    cases question with
    | nil => simp [jsTrim] at h
    | cons a l => simp [h]
  rw [if_neg (by simp [hq])]
  rfl

/-- Witness for C8 at a concrete question with no search rows. -/
theorem queryKnowledgeBase_no_rows_witness :
    queryKnowledgeBase [] (("what is this about").toList) [] 5 []
      (fun _ => JsCompletion.jnull) = .ok ⟨noRelevantMsg, [], false⟩ :=
  queryKnowledgeBase_no_rows [] (("what is this about").toList) [] 5
    (fun _ => JsCompletion.jnull) (by decide)

/-- C9: for every ingestion in which the temporary PDF file is created,
the scoped temporary directory is removed at exit on every path, both
when all storage and persistence steps succeed and when any of them
throws. -/
theorem ingestPdf_temp_cleanup (originalName : Option Str) (fileId : Str)
    (o : IngestOracles) (h : (ingestPdf originalName fileId o).2.created = true) :
    (ingestPdf originalName fileId o).2.removedAtExit = true := by
  unfold ingestPdf at h ⊢
  by_cases hc : o.chunkPdfResult.isEmpty = true
  · simp [hc] at h
  · simp only [hc, Bool.false_eq_true, if_false] at h ⊢
    split <;> rfl

/-- Witness for C9 at a concrete ingestion whose upload step throws. -/
theorem ingestPdf_temp_cleanup_witness :
    (ingestPdf none [] ⟨[⟨0, 1, ['a'], ['a'], 0, 1⟩], .error ⟨[], none⟩, .ok (), .ok ()⟩).2.removedAtExit = true :=
  ingestPdf_temp_cleanup none []
    ⟨[⟨0, 1, ['a'], ['a'], 0, 1⟩], .error ⟨[], none⟩, .ok (), .ok ()⟩ (by decide)

/-- C7 counterexample: extraction trims, so a plain string " X " is not
returned as itself but as "X", and an empty (falsy) choices content is
skipped in favor of the response field rather than being returned. -/
theorem extractCompletion_counterexample :
    extractCompletion (.jstr ((" X ").toList)) ≠ (" X ").toList ∧
    extractCompletion (.jstr ((" X ").toList)) = ("X").toList ∧
    extractCompletion (.jobj (some [.cstr []]) (.rstr (("yo").toList)) .tnone) =
      ("yo").toList := by
  refine ⟨by decide, by decide, by decide⟩

/-- C7 (amended): extraction returns the trimmed string for a plain
string result; the trimmed choices content when that content is truthy
(a non-empty string, or any fragment array whose texts are concatenated
then trimmed); else the trimmed string-valued response field; else the
trimmed content field (string or fragment array); else the empty
string.  The orchestrator replaces an empty extraction with the fixed
no-answer fallback rather than an error, and the shape with choices
content "X" extracts exactly "X". -/
theorem extractCompletion_spec :
    (∀ s, extractCompletion (.jstr s) = jsTrim s) ∧
    (∀ s rest resp cont, s ≠ [] →
      extractCompletion (.jobj (some (.cstr s :: rest)) resp cont) = jsTrim s) ∧
    (∀ l rest resp cont,
      extractCompletion (.jobj (some (.carr l :: rest)) resp cont) =
        jsTrim ((l.map fragTextChoices).flatten)) ∧
    (∀ choices s cont, choicesExtract choices = none →
      extractCompletion (.jobj choices (.rstr s) cont) = jsTrim s) ∧
    (∀ choices s, choicesExtract choices = none →
      extractCompletion (.jobj choices .rnone (.tstr s)) = jsTrim s) ∧
    (∀ choices l, choicesExtract choices = none →
      extractCompletion (.jobj choices .rnone (.tarr l)) =
        jsTrim ((l.map fragTextContent).flatten)) ∧
    (∀ choices, choicesExtract choices = none →
      extractCompletion (.jobj choices .rnone .tnone) = []) ∧
    extractCompletion .jnull = [] ∧
    extractCompletion .jother = [] ∧
    extractCompletion (.jobj (some [.cstr (("X").toList)]) .rnone .tnone) = ("X").toList ∧
    (∀ SR question fileIds topK rows complete,
      (jsTrim question).isEmpty = false → rows ≠ ([] : List Row) →
      extractCompletion (complete (buildPrompt question (rows.map (mapChunkRow SR)))) = [] →
      queryKnowledgeBase SR question fileIds topK rows complete =
        .ok ⟨noAnswerMsg, rows.map (mapChunkRow SR), true⟩) := by
  refine ⟨fun s => rfl, ?_, fun l rest resp cont => rfl, ?_, ?_, ?_, ?_, rfl, rfl, by decide, ?_⟩
  · intro s rest resp cont hs
    have hse : s.isEmpty = false := by
      cases s with
      | nil => exact absurd rfl hs
      | cons a l => rfl
    simp [extractCompletion, choicesExtract, hse]
  · intro choices s cont hch
    simp [extractCompletion, hch]
  · intro choices s hch
    simp [extractCompletion, hch]
  · intro choices l hch
    simp [extractCompletion, hch]
  · intro choices hch
    simp [extractCompletion, hch]
  · intro SR question fileIds topK rows complete hq hrows hext
    unfold queryKnowledgeBase
    have hq2 : (question.isEmpty || (jsTrim question).isEmpty) = false := by
      cases question with
      | nil => simp [jsTrim] at hq
      | cons a l => simp [hq]
    rw [if_neg (by simp [hq2])]
    have hmap : (rows.map (mapChunkRow SR)).isEmpty = false := by
      cases rows with
      | nil => exact absurd rfl hrows
      | cons a l => rfl
    simp only [hmap, Bool.false_eq_true, if_false, hext]
    rfl

/-- Witness for C7 at a concrete non-empty choices content. -/
theorem extractCompletion_spec_witness :
    extractCompletion (.jobj (some [.cstr ((" hi ").toList)]) .rnone .tnone) =
      jsTrim ((" hi ").toList) :=
  extractCompletion_spec.2.1 ((" hi ").toList) [] .rnone .tnone (by decide)

/-- A successful candidate attempt carries that candidate's sanitized
identifier and stage reference in the provenance headers. -/
theorem attemptCandidate_ok_headers (SR : Str) (world : Candidate → Except Err Str)
    (pointer : Option Pointer) (c : Candidate) (r : StreamResponse)
    (h : attemptCandidate SR world pointer c = .ok r) :
    sanitizeIdentifier c.identifier = .ok r.stagePathHeader ∧
    sanitizeStageReference SR (some c.stageReference) = .ok r.stageReferenceHeader := by
  unfold attemptCandidate at h
  split at h
  next e heq1 => exact Except.noConfusion h
  next stageRef heq1 =>
    split at h
    next e heq2 => exact Except.noConfusion h
    next safeId heq2 =>
      split at h
      next e heq3 => exact Except.noConfusion h
      next body heq3 =>
        cases Except.ok.inj h
        exact ⟨heq2, heq1⟩

/-- One failing head candidate steps the loop to the tail, recording
its error as the last one seen. -/
theorem streamCandidates_cons_fail (SR : Str) (world : Candidate → Except Err Str)
    (pointer : Option Pointer) (p : Candidate) (rest : List Candidate)
    (last : Option Err) (e : Err)
    (he : attemptCandidate SR world pointer p = .error e) :
    streamCandidates SR world pointer (p :: rest) last =
      streamCandidates SR world pointer rest (some e) := by
  conv_lhs => rw [streamCandidates.eq_def]
  dsimp only
  rw [he]

/-- C3: candidates are tried strictly in list order; when every
candidate before c fails, the response comes from c as the first
success, with provenance headers carrying c's sanitized identifier and
stage reference; when c is the last candidate and also fails, the
surfaced error is c's error, the last one recorded; and an exhausted
empty list surfaces the generic unable-to-retrieve error when no error
was recorded. -/
theorem streamResolver_spec (SR : Str) (world : Candidate → Except Err Str)
    (pointer : Option Pointer) (pre : List Candidate) (c : Candidate) (post : List Candidate)
    (hpre : ∀ cand ∈ pre, ∃ e, attemptCandidate SR world pointer cand = .error e) :
    (∀ r, attemptCandidate SR world pointer c = .ok r →
      streamCandidates SR world pointer (pre ++ c :: post) none = .ok r ∧
      sanitizeIdentifier c.identifier = .ok r.stagePathHeader ∧
      sanitizeStageReference SR (some c.stageReference) = .ok r.stageReferenceHeader) ∧
    (∀ e, attemptCandidate SR world pointer c = .error e →
      streamCandidates SR world pointer (pre ++ [c]) none = .error e) ∧
    streamCandidates SR world pointer [] none = .error ⟨unableToRetrieveMsg, none⟩ := by
  have hsucc : ∀ (pre2 : List Candidate) (last : Option Err),
      (∀ cand ∈ pre2, ∃ e, attemptCandidate SR world pointer cand = .error e) →
      ∀ r, attemptCandidate SR world pointer c = .ok r →
      streamCandidates SR world pointer (pre2 ++ c :: post) last = .ok r := by
    intro pre2
    induction pre2 with
    | nil =>
      intro last _ r hr
      show streamCandidates SR world pointer (c :: post) last = .ok r
      conv_lhs => rw [streamCandidates.eq_def]
      dsimp only
      rw [hr]
    | cons p ps ih =>
      intro last hall r hr
      obtain ⟨e, he⟩ := hall p (List.mem_cons_self p ps)
      rw [List.cons_append,
        streamCandidates_cons_fail SR world pointer p (ps ++ c :: post) last e he]
      exact ih (some e) (fun cand hc => hall cand (List.mem_cons_of_mem p hc)) r hr
  have hfail : ∀ (pre2 : List Candidate) (last : Option Err),
      (∀ cand ∈ pre2, ∃ e, attemptCandidate SR world pointer cand = .error e) →
      ∀ e, attemptCandidate SR world pointer c = .error e →
      streamCandidates SR world pointer (pre2 ++ [c]) last = .error e := by
    intro pre2
    induction pre2 with
    | nil =>
      intro last _ e he
      show streamCandidates SR world pointer [c] last = .error e
      rw [streamCandidates_cons_fail SR world pointer c [] last e he]
      rfl
    | cons p ps ih =>
      intro last hall e he
      obtain ⟨e0, he0⟩ := hall p (List.mem_cons_self p ps)
      rw [List.cons_append,
        streamCandidates_cons_fail SR world pointer p (ps ++ [c]) last e0 he0]
      exact ih (some e0) (fun cand hc => hall cand (List.mem_cons_of_mem p hc)) e he
  refine ⟨?_, fun e he => hfail pre none hpre e he, rfl⟩
  intro r hr
  obtain ⟨h1, h2⟩ := attemptCandidate_ok_headers SR world pointer c r hr
  exact ⟨hsucc pre none hpre r hr, h1, h2⟩

/-- Witness for C3: one failing candidate followed by a succeeding one;
the response carries the second candidate's identifier and stage. -/
theorem streamResolver_spec_witness :
    streamCandidates (("@S").toList)
      (fun cand => if cand.identifier = ("b").toList then .ok (("PDF").toList)
        else .error ⟨("boom").toList, none⟩)
      none
      ([⟨("a").toList, ("@S").toList⟩] ++ ⟨("b").toList, ("@S").toList⟩ :: []) none =
      .ok ⟨("b").toList, none, ("b").toList, ("@S").toList, ("PDF").toList⟩ :=
  ((streamResolver_spec (("@S").toList)
      (fun cand => if cand.identifier = ("b").toList then .ok (("PDF").toList)
        else .error ⟨("boom").toList, none⟩)
      none [⟨("a").toList, ("@S").toList⟩] ⟨("b").toList, ("@S").toList⟩ []
      (by
        intro cand hc
        rw [List.mem_singleton] at hc
        subst hc
        exact ⟨⟨("boom").toList, none⟩, rfl⟩)).1
    ⟨("b").toList, none, ("b").toList, ("@S").toList, ("PDF").toList⟩ rfl).1

/-- With chunkSize at least 1 the loop fuel text.length + 1 always
suffices: the loop exits by its own break (no fuel exhaustion), and
every chunk it emits has its start strictly below its end, which is at
most the page length. -/
theorem chunkLoop_fuel_sufficient (text : Str) (cs ov pn : Nat)
    (hcs : 1 ≤ cs) (hov : ov ≤ cs - 1) :
    ∀ (fuel cursor idx : Nat), text.length - cursor < fuel →
      ∃ l, chunkLoop text cs ov pn fuel cursor idx = some l ∧
        ∀ ch ∈ l, ch.pageCharStart < ch.pageCharEnd ∧ ch.pageCharEnd ≤ text.length := by
  intro fuel
  induction fuel with
  | zero => intro cursor idx h; omega
  | succ fuel ih =>
    intro cursor idx h
    rw [chunkLoop.eq_def]
    dsimp only
    by_cases hc : cursor < text.length
    · rw [if_pos hc]
      by_cases hend : text.length ≤ min (cursor + cs) text.length
      · rw [if_pos hend]
        refine ⟨_, rfl, ?_⟩
        intro ch hch
        by_cases hn :
            0 < (jsTrim (collapseWs ' ' ((text.drop cursor).take
              (min (cursor + cs) text.length - cursor)))).length
        · rw [if_pos hn] at hch
          rw [List.mem_singleton] at hch
          subst hch
          refine ⟨?_, ?_⟩ <;> (simp; try omega)
        · rw [if_neg hn] at hch
          exact absurd hch (List.not_mem_nil ch)
      · rw [if_neg hend]
        have hlt : min (cursor + cs) text.length = cursor + cs := by omega
        have hnext : text.length - (min (cursor + cs) text.length - ov) < fuel := by omega
        obtain ⟨rest, hrest, hb⟩ := ih (min (cursor + cs) text.length - ov) _ hnext
        rw [hrest]
        refine ⟨_, rfl, ?_⟩
        intro ch hch
        rcases List.mem_append.mp hch with hm | hm
        · by_cases hn :
              0 < (jsTrim (collapseWs ' ' ((text.drop cursor).take
                (min (cursor + cs) text.length - cursor)))).length
          · rw [if_pos hn] at hm
            rw [List.mem_singleton] at hm
            subst hm
            refine ⟨?_, ?_⟩ <;> (simp; try omega)
          · rw [if_neg hn] at hm
            exact absurd hm (List.not_mem_nil ch)
        · exact hb ch hm
    · rw [if_neg hc]
      exact ⟨[], rfl, fun ch hch => absurd hch (List.not_mem_nil ch)⟩

/-- C2: for every page text, every chunkSize at least 1 and every
chunkOverlap, the page loop terminates by its own break (its result is
some finite chunk list, never the fuel-exhaustion marker), every
emitted chunk satisfies charStart strictly below charEnd and charEnd at
most the page length, and the cursor strictly increases on every
iteration that does not end the loop (whenever the chunk end is still
short of the page length, the next cursor exceeds the current one). -/
theorem chunker_terminates_and_bounds (text : Str) (pn cs ov si : Nat) (hcs : 1 ≤ cs) :
    (chunkPageText text pn cs ov si).isSome = true ∧
    (∀ l, chunkPageText text pn cs ov si = some l →
      ∀ ch ∈ l, ch.pageCharStart < ch.pageCharEnd ∧ ch.pageCharEnd ≤ text.length) ∧
    (∀ cursor, min (cursor + cs) text.length < text.length →
      cursor < min (cursor + cs) text.length - effOverlap cs ov) := by
  have hov : effOverlap cs ov ≤ cs - 1 := min_le_right _ _
  have hstep : ∀ cursor, min (cursor + cs) text.length < text.length →
      cursor < min (cursor + cs) text.length - effOverlap cs ov := by
    intro cursor hcur
    unfold effOverlap at hov ⊢
    omega
  by_cases h0 : text.length = 0
  · unfold chunkPageText
    rw [if_pos h0]
    refine ⟨rfl, ?_, hstep⟩
    intro l hl ch hch
    cases Option.some.inj hl
    exact absurd hch (List.not_mem_nil ch)
  · obtain ⟨l, hl, hb⟩ :=
      chunkLoop_fuel_sufficient text cs (effOverlap cs ov) pn hcs hov
        (text.length + 1) 0 si (by omega)
    unfold chunkPageText
    rw [if_neg h0, hl]
    refine ⟨rfl, ?_, hstep⟩
    intro l2 hl2
    cases Option.some.inj hl2
    exact hb

/-- Witness for C2 at a concrete short text with an oversized overlap
parameter. -/
theorem chunker_terminates_and_bounds_witness :
    (chunkPageText (("ab cd").toList) 1 2 7 0).isSome = true :=
  (chunker_terminates_and_bounds (("ab cd").toList) 1 2 7 0 (by decide)).1

/-- The closure invariant of buildStageCandidates: every accumulated
candidate has its dedup key in the seen set, and no two accumulated
candidates coincide. -/
def ResolverInv (st : ResolverState) : Prop :=
  (∀ cand ∈ st.candidates, candidateKey cand.stageReference cand.identifier ∈ st.seen) ∧
  st.candidates.Nodup

theorem addCandidate_inv (SR defaultStage : Str) (st st' : ResolverState)
    (idOpt sref : Option Str) (hinv : ResolverInv st)
    (h : addCandidate SR defaultStage st idOpt sref = .ok st') : ResolverInv st' := by
  unfold addCandidate at h
  cases idOpt with
  | none => cases Except.ok.inj h; exact hinv
  | some id =>
    dsimp only at h
    by_cases ht : (jsTrim id).isEmpty = true
    · rw [if_pos ht] at h
      cases Except.ok.inj h
      exact hinv
    · rw [if_neg ht] at h
      cases hs : sanitizeStageReference SR (some (sref.getD defaultStage)) with
      | error e => rw [hs] at h; exact Except.noConfusion h
      | ok resolvedStage =>
        rw [hs] at h
        dsimp only at h
        by_cases hseen : st.seen.contains (candidateKey resolvedStage (jsTrim id)) = true
        · rw [if_pos hseen] at h
          cases Except.ok.inj h
          exact hinv
        · rw [if_neg hseen] at h
          cases Except.ok.inj h
          obtain ⟨h1, h2⟩ := hinv
          constructor
          · intro cand hc
            rcases List.mem_append.mp hc with hm | hm
            · exact List.mem_append_left _ (h1 cand hm)
            · rw [List.mem_singleton] at hm
              subst hm
              exact List.mem_append_right _ (List.mem_singleton.mpr rfl)
          · rw [List.nodup_append]
            refine ⟨h2, List.nodup_singleton _, ?_⟩
            intro a ha hb
            rw [List.mem_singleton] at hb
            subst hb
            have hk := h1 _ ha
            have : st.seen.contains (candidateKey resolvedStage (jsTrim id)) = true := by
              exact List.elem_eq_true_of_mem hk
            exact hseen this

theorem addCanonicalVariants_inv (SR defaultStage : Str) (st st' : ResolverState)
    (fileId filename : Str) (sref : Option Str) (hinv : ResolverInv st)
    (h : addCanonicalVariants SR defaultStage st fileId filename sref = .ok st') :
    ResolverInv st' := by
  unfold addCanonicalVariants at h
  by_cases hfe : (fileId.isEmpty || filename.isEmpty) = true
  · rw [if_pos hfe] at h
    cases Except.ok.inj h
    exact hinv
  · rw [if_neg hfe] at h
    dsimp only at h
    cases h1 : addCandidate SR defaultStage st (some (fileId ++ '/' :: filename)) sref with
    | error e => rw [h1] at h; exact Except.noConfusion h
    | ok st2 =>
      rw [h1] at h
      exact addCandidate_inv SR defaultStage st2 st' _ sref
        (addCandidate_inv SR defaultStage st st2 _ sref hinv h1) h

theorem resolverRequestBlock_inv (SR defaultStage : Str) (pointer : Option Pointer)
    (requestIdentifier requestStage : Option Str) (st st' : ResolverState)
    (hinv : ResolverInv st)
    (h : resolverRequestBlock SR defaultStage pointer requestIdentifier requestStage st = .ok st') :
    ResolverInv st' := by
  unfold resolverRequestBlock at h
  by_cases htr : truthy requestIdentifier = true
  · rw [if_pos htr] at h
    dsimp only at h
    cases h1 : addCandidate SR defaultStage st (some (requestIdentifier.getD [])) requestStage with
    | error e => rw [h1] at h; exact Except.noConfusion h
    | ok st1 =>
      rw [h1] at h
      have hinv1 := addCandidate_inv SR defaultStage st st1 _ requestStage hinv h1
      cases hbl : buildLegacyCandidateIdentifier (requestIdentifier.getD []) pointer with
      | none =>
        rw [hbl] at h
        dsimp only at h
        cases hel : extractLegacyTailInfo (requestIdentifier.getD []) with
        | none =>
          rw [hel] at h
          cases Except.ok.inj h
          exact hinv1
        | some pr =>
          rw [hel] at h
          exact addCanonicalVariants_inv SR defaultStage st1 st' pr.1 pr.2 requestStage hinv1 h
      | some legacy =>
        rw [hbl] at h
        dsimp only at h
        cases h2 : addCandidate SR defaultStage st1 (some legacy) requestStage with
        | error e => rw [h2] at h; exact Except.noConfusion h
        | ok st2 =>
          rw [h2] at h
          have hinv2 := addCandidate_inv SR defaultStage st1 st2 _ requestStage hinv1 h2
          cases hel : extractLegacyTailInfo (requestIdentifier.getD []) with
          | none =>
            rw [hel] at h
            cases Except.ok.inj h
            exact hinv2
          | some pr =>
            rw [hel] at h
            exact addCanonicalVariants_inv SR defaultStage st2 st' pr.1 pr.2 requestStage hinv2 h
  · rw [if_neg htr] at h
    cases Except.ok.inj h
    exact hinv

theorem resolverPointerPathBlock_inv (SR defaultStage : Str) (pointer : Option Pointer)
    (st st' : ResolverState) (hinv : ResolverInv st)
    (h : resolverPointerPathBlock SR defaultStage pointer st = .ok st') : ResolverInv st' := by
  unfold resolverPointerPathBlock at h
  cases pointer with
  | none => cases Except.ok.inj h; exact hinv
  | some p =>
    dsimp only at h
    by_cases htr : truthy p.stagePath = true
    · rw [if_pos htr] at h
      cases h1 : addCandidate SR defaultStage st p.stagePath p.stageReference with
      | error e => rw [h1] at h; exact Except.noConfusion h
      | ok st1 =>
        rw [h1] at h
        have hinv1 := addCandidate_inv SR defaultStage st st1 _ p.stageReference hinv h1
        cases hbl : buildLegacyCandidateIdentifier (p.stagePath.getD []) (some p) with
        | none =>
          rw [hbl] at h
          cases Except.ok.inj h
          exact hinv1
        | some legacy =>
          rw [hbl] at h
          exact addCandidate_inv SR defaultStage st1 st' _ p.stageReference hinv1 h
    · rw [if_neg htr] at h
      cases Except.ok.inj h
      exact hinv

theorem resolverPointerCanonicalBlock_inv (SR defaultStage : Str) (pointer : Option Pointer)
    (st st' : ResolverState) (hinv : ResolverInv st)
    (h : resolverPointerCanonicalBlock SR defaultStage pointer st = .ok st') : ResolverInv st' := by
  unfold resolverPointerCanonicalBlock at h
  cases pointer with
  | none => cases Except.ok.inj h; exact hinv
  | some p =>
    dsimp only at h
    by_cases hfe : (!p.fileId.isEmpty && !p.filename.isEmpty) = true
    · rw [if_pos hfe] at h
      exact addCanonicalVariants_inv SR defaultStage st st' p.fileId p.filename
        p.stageReference hinv h
    · rw [if_neg hfe] at h
      cases Except.ok.inj h
      exact hinv

theorem buildStageCandidates_nodup (SR : Str) (pointer : Option Pointer)
    (requestIdentifier requestStage : Option Str) (cs : List Candidate)
    (h : buildStageCandidates SR pointer requestIdentifier requestStage = .ok cs) :
    cs.Nodup := by
  unfold buildStageCandidates at h
  dsimp only at h
  have hinv0 : ResolverInv ⟨[], []⟩ :=
    ⟨fun cand hc => absurd hc (List.not_mem_nil cand), List.nodup_nil⟩
  cases h1 : resolverRequestBlock SR
      (((pointer.bind Pointer.stageReference).or requestStage).getD SR) pointer
      requestIdentifier requestStage ⟨[], []⟩ with
  | error e => rw [h1] at h; exact Except.noConfusion h
  | ok st1 =>
    rw [h1] at h
    dsimp only at h
    have hinv1 := resolverRequestBlock_inv _ _ _ _ _ _ _ hinv0 h1
    cases h2 : resolverPointerPathBlock SR
        (((pointer.bind Pointer.stageReference).or requestStage).getD SR) pointer st1 with
    | error e => rw [h2] at h; exact Except.noConfusion h
    | ok st2 =>
      rw [h2] at h
      dsimp only at h
      have hinv2 := resolverPointerPathBlock_inv _ _ _ _ _ hinv1 h2
      cases h3 : resolverPointerCanonicalBlock SR
          (((pointer.bind Pointer.stageReference).or requestStage).getD SR) pointer st2 with
      | error e => rw [h3] at h; exact Except.noConfusion h
      | ok st3 =>
        rw [h3] at h
        dsimp only at h
        have hinv3 := resolverPointerCanonicalBlock_inv _ _ _ _ _ hinv2 h3
        cases Except.ok.inj h
        exact hinv3.2

/-- C5: for every document pointer, request identifier and request
stage, a successfully built candidate list never contains two
candidates with the same (stageReference, identifier) pair. -/
theorem buildStageCandidates_no_duplicate_pairs (SR : Str) (pointer : Option Pointer)
    (requestIdentifier requestStage : Option Str) (cs : List Candidate)
    (h : buildStageCandidates SR pointer requestIdentifier requestStage = .ok cs) :
    cs.Pairwise fun a b =>
      ¬(a.stageReference = b.stageReference ∧ a.identifier = b.identifier) := by
  have hnd := buildStageCandidates_nodup SR pointer requestIdentifier requestStage cs h
  refine hnd.imp ?_
  intro a b hne ⟨hs, hi⟩
  apply hne
  cases a
  cases b
  cases hs
  cases hi
  rfl

/-- Witness for C5 at a concrete single-identifier request. -/
theorem buildStageCandidates_no_duplicate_pairs_witness :
    List.Pairwise
      (fun a b : Candidate =>
        ¬(a.stageReference = b.stageReference ∧ a.identifier = b.identifier))
      [⟨("x").toList, ("@S").toList⟩] :=
  buildStageCandidates_no_duplicate_pairs (("@S").toList) none (some (("x").toList)) none
    [⟨("x").toList, ("@S").toList⟩] rfl

/-- Specification of takeHex: on success the consumed prefix has the
requested length and is all hex. -/
theorem takeHex_spec (n : Nat) (l h r : Str) (hh : takeHex n l = some (h, r)) :
    l = h ++ r ∧ h.length = n ∧ h.all isHexDigit = true := by
  unfold takeHex at hh
  by_cases hc : ((l.take n).length = n && (l.take n).all isHexDigit) = true
  · rw [if_pos hc] at hh
    obtain ⟨h1, h2⟩ := Prod.mk.injEq _ _ _ _ ▸ Option.some.inj hh
    subst h1
    subst h2
    simp only [Bool.and_eq_true, decide_eq_true_eq] at hc
    exact ⟨(List.take_append_drop n l).symm, hc.1, hc.2⟩
  · rw [if_neg hc] at hh
    exact Option.noConfusion hh

/-- Specification of expectDash: on success the input began with a dash. -/
theorem expectDash_spec (l r : Str) (h : expectDash l = some r) : l = '-' :: r := by
  unfold expectDash at h
  cases l with
  | nil => exact Option.noConfusion h
  | cons c t =>
    dsimp only at h
    by_cases hc : c = '-'
    · subst hc
      rw [if_pos rfl] at h
      rw [Option.some.inj h]
    · rw [if_neg hc] at h
      exact Option.noConfusion h

/-- A successful legacy-flat match decomposes the tail into the
captured uuid, a dash, and the non-empty rest; the uuid starts with a
hex digit. -/
theorem matchLegacyFlat_spec (tail fid rest : Str)
    (h : matchLegacyFlat tail = some (fid, rest)) :
    tail = fid ++ '-' :: rest ∧ (∃ c0 t0, fid = c0 :: t0 ∧ isHexDigit c0 = true) ∧
      rest ≠ [] := by
  unfold matchLegacyFlat at h
  cases e1 : takeHex 8 tail with
  | none => rw [e1] at h; exact Option.noConfusion h
  | some p1 =>
  obtain ⟨h1, r1⟩ := p1
  rw [e1] at h
  dsimp only at h
  obtain ⟨ht1, hl1, hx1⟩ := takeHex_spec 8 tail h1 r1 e1
  cases e2 : expectDash r1 with
  | none => rw [e2] at h; exact Option.noConfusion h
  | some r1b =>
  rw [e2] at h
  dsimp only at h
  have ht2 := expectDash_spec r1 r1b e2
  cases e3 : takeHex 4 r1b with
  | none => rw [e3] at h; exact Option.noConfusion h
  | some p2 =>
  obtain ⟨h2, r2⟩ := p2
  rw [e3] at h
  dsimp only at h
  obtain ⟨ht3, hl3, hx3⟩ := takeHex_spec 4 r1b h2 r2 e3
  cases e4 : expectDash r2 with
  | none => rw [e4] at h; exact Option.noConfusion h
  | some r2b =>
  rw [e4] at h
  dsimp only at h
  have ht4 := expectDash_spec r2 r2b e4
  cases e5 : takeHex 4 r2b with
  | none => rw [e5] at h; exact Option.noConfusion h
  | some p3 =>
  obtain ⟨h3, r3⟩ := p3
  rw [e5] at h
  dsimp only at h
  obtain ⟨ht5, hl5, hx5⟩ := takeHex_spec 4 r2b h3 r3 e5
  cases e6 : expectDash r3 with
  | none => rw [e6] at h; exact Option.noConfusion h
  | some r3b =>
  rw [e6] at h
  dsimp only at h
  have ht6 := expectDash_spec r3 r3b e6
  cases e7 : takeHex 4 r3b with
  | none => rw [e7] at h; exact Option.noConfusion h
  | some p4 =>
  obtain ⟨h4, r4⟩ := p4
  rw [e7] at h
  dsimp only at h
  obtain ⟨ht7, hl7, hx7⟩ := takeHex_spec 4 r3b h4 r4 e7
  cases e8 : expectDash r4 with
  | none => rw [e8] at h; exact Option.noConfusion h
  | some r4b =>
  rw [e8] at h
  dsimp only at h
  have ht8 := expectDash_spec r4 r4b e8
  cases e9 : takeHex 12 r4b with
  | none => rw [e9] at h; exact Option.noConfusion h
  | some p5 =>
  obtain ⟨h5, r5⟩ := p5
  rw [e9] at h
  dsimp only at h
  obtain ⟨ht9, hl9, hx9⟩ := takeHex_spec 12 r4b h5 r5 e9
  cases e10 : expectDash r5 with
  | none => rw [e10] at h; exact Option.noConfusion h
  | some r5b =>
  rw [e10] at h
  dsimp only at h
  have ht10 := expectDash_spec r5 r5b e10
  by_cases hr : (r5b.isEmpty || r5b.any isLineTerminator) = true
  · rw [if_pos hr] at h
    exact Option.noConfusion h
  · rw [if_neg hr] at h
    obtain ⟨hf, hr2⟩ := Prod.mk.injEq _ _ _ _ ▸ Option.some.inj h
    simp only [Bool.or_eq_true, not_or] at hr
    subst hr2
    refine ⟨?_, ?_, ?_⟩
    · subst hf
      rw [ht1, ht2, ht3, ht4, ht5, ht6, ht7, ht8, ht9, ht10]
      simp [List.append_assoc]
    · cases h1 with
      | nil => simp at hl1
      | cons c0 t0 =>
        refine ⟨c0, t0 ++ '-' :: h2 ++ '-' :: h3 ++ '-' :: h4 ++ '-' :: h5, ?_, ?_⟩
        · rw [← hf]
          rfl
        · simp only [List.all_cons, Bool.and_eq_true] at hx1
          exact hx1.1
    · intro hnil
      subst hnil
      simp at hr

/-- A dropWhile is the identity when the head fails the predicate. -/
theorem dropWhile_eq_self_of_head (p : Char → Bool) (l : Str)
    (h : ∀ c, l.head? = some c → p c = false) : l.dropWhile p = l := by
  cases l with
  | nil => rfl
  | cons a t => exact List.dropWhile_cons_of_neg (by simp [h a rfl])

/-- Dropping from the reversed list is the identity when the last
character fails the predicate. -/
theorem reverse_dropWhile_reverse_eq_self (p : Char → Bool) (l : Str)
    (h : ∀ c, l.getLast? = some c → p c = false) :
    (l.reverse.dropWhile p).reverse = l := by
  cases hr : l.reverse with
  | nil =>
    have hnil : l = [] := by simpa using congrArg List.reverse hr
    subst hnil
    rfl
  | cons b rb =>
    have hb : l.getLast? = some b := by
      rw [← List.head?_reverse, hr]
      rfl
    have hpb : p b = false := h b hb
    rw [List.dropWhile_cons_of_neg (by simp [hpb]), ← hr, List.reverse_reverse]

/-- Trimming fixes a string whose two ends are not whitespace. -/
theorem jsTrim_eq_self_of (l : Str)
    (hh : ∀ c, l.head? = some c → isJsWs c = false)
    (hl : ∀ c, l.getLast? = some c → isJsWs c = false) : jsTrim l = l := by
  unfold jsTrim
  rw [dropWhile_eq_self_of_head isJsWs l hh]
  exact reverse_dropWhile_reverse_eq_self isJsWs l hl

/-- A trim fixpoint has a non-whitespace head. -/
theorem jsTrim_head_not_ws (l : Str) (h : jsTrim l = l) :
    ∀ c, l.head? = some c → isJsWs c = false := by
  intro c hc
  cases l with
  | nil => exact Option.noConfusion hc
  | cons a t =>
    have hac : a = c := Option.some.inj hc
    subst hac
    by_cases hw : isJsWs a = true
    · exfalso
      have h1 : jsTrim (a :: t) =
          ((List.dropWhile isJsWs t).reverse.dropWhile isJsWs).reverse := by
        unfold jsTrim
        rw [List.dropWhile_cons_of_pos hw]
      have h2 : (jsTrim (a :: t)).length ≤ t.length := by
        rw [h1, List.length_reverse]
        refine le_trans (List.dropWhile_sublist _).length_le ?_
        rw [List.length_reverse]
        exact (List.dropWhile_sublist _).length_le
      rw [h] at h2
      simp at h2
    · exact Bool.eq_false_iff.mpr hw

/-- A trim fixpoint has a non-whitespace last character. -/
theorem jsTrim_getLast_not_ws (l : Str) (h : jsTrim l = l) :
    ∀ c, l.getLast? = some c → isJsWs c = false := by
  intro c hc
  by_cases hw : isJsWs c = true
  · exfalso
    have hlne : l ≠ [] := by
      intro he
      subst he
      exact Option.noConfusion hc
    have hdsplit : List.takeWhile isJsWs l ++ List.dropWhile isJsWs l = l :=
      List.takeWhile_append_dropWhile isJsWs l
    cases hd : List.dropWhile isJsWs l with
    | nil =>
      have hnil : jsTrim l = [] := by
        unfold jsTrim
        rw [hd]
        rfl
      rw [h] at hnil
      exact hlne hnil
    | cons b db =>
      have hdne : List.dropWhile isJsWs l ≠ [] := by
        rw [hd]
        exact List.cons_ne_nil b db
      have hlast : (List.dropWhile isJsWs l).getLast? = some c := by
        rw [← hc]
        conv_rhs => rw [← hdsplit]
        exact (List.getLast?_append_of_ne_nil _ hdne).symm
      have hrev : (List.dropWhile isJsWs l).reverse.head? = some c := by
        rw [List.head?_reverse]
        exact hlast
      cases hr : (List.dropWhile isJsWs l).reverse with
      | nil =>
        rw [hr] at hrev
        exact Option.noConfusion hrev
      | cons b2 rb =>
        rw [hr] at hrev
        have hb2 : b2 = c := Option.some.inj hrev
        subst hb2
        have hlen : (jsTrim l).length ≤ rb.length := by
          unfold jsTrim
          rw [hr, List.dropWhile_cons_of_pos hw, List.length_reverse]
          exact (List.dropWhile_sublist _).length_le
        have hrb : rb.length + 1 = (List.dropWhile isJsWs l).length := by
          have hlc := congrArg List.length hr
          simp at hlc
          omega
        have hdle : (List.dropWhile isJsWs l).length ≤ l.length :=
          (List.dropWhile_sublist _).length_le
        rw [h] at hlen
        omega
  · exact Bool.eq_false_iff.mpr hw

/-- A split on a separator absent from the string is the singleton. -/
theorem splitOnChar_no_sep (sep : Char) (l : Str) (h : sep ∉ l) :
    splitOnChar sep l = [l] := by
  induction l with
  | nil => rfl
  | cons c t ih =>
    have hc : ¬ c = sep := by
      intro he
      exact h (he ▸ List.mem_cons_self c t)
    have ht : sep ∉ t := fun hm => h (List.mem_cons_of_mem c hm)
    unfold splitOnChar
    dsimp only
    rw [ih ht, if_neg hc]

/-- Stripping trailing slashes is the identity on slash-free strings. -/
theorem dropTrailingSlashes_no_slash (l : Str) (h : ('/' : Char) ∉ l) :
    dropTrailingSlashes l = l := by
  unfold dropTrailingSlashes
  refine reverse_dropWhile_reverse_eq_self _ l ?_
  intro c hc
  have hcm : c ∈ l := List.mem_of_mem_getLast? hc
  simp only [decide_eq_false_iff_not]
  intro he
  exact h (he ▸ hcm)

/-- A single-character substring test is membership. -/
theorem jsIncludes_singleton (a : Char) (l : Str) :
    jsIncludes [a] l = true ↔ a ∈ l := by
  unfold jsIncludes
  rw [decide_eq_true_iff]
  constructor
  · intro hinf
    obtain ⟨s, t, hst⟩ := hinf
    subst hst
    simp
  · intro hm
    obtain ⟨s, t, hst⟩ := List.append_of_mem hm
    exact ⟨s, t, by rw [hst]; simp⟩

/-- Hex digits are not JavaScript whitespace. -/
theorem hexDigit_not_ws (c : Char) (h : isHexDigit c = true) : isJsWs c = false := by
  unfold isHexDigit at h
  simp only [Bool.or_eq_true, Bool.and_eq_true, decide_eq_true_eq] at h
  unfold isJsWs
  simp only [List.contains_cons, List.contains_nil, Bool.or_eq_false_iff,
    beq_eq_false_iff_ne, ne_eq, and_true]
  omega

/-- The dedup key determines the identifier under a fixed stage. -/
theorem candidateKey_inj (SR a b : Str) (h : candidateKey SR a = candidateKey SR b) :
    a = b := by
  unfold candidateKey at h
  have h3 := (List.cons.inj (List.append_cancel_left h)).2
  exact (List.cons.inj h3).2

/-- The last element of an append through a cons lives in the tail. -/
theorem getLast?_append_cons (l1 : Str) (c : Char) (l2 : Str) (h2 : l2 ≠ []) :
    (l1 ++ c :: l2).getLast? = l2.getLast? := by
  rw [List.getLast?_append_of_ne_nil l1 (List.cons_ne_nil c l2)]
  have hcc : c :: l2 = [c] ++ l2 := rfl
  rw [hcc, List.getLast?_append_of_ne_nil [c] h2]

/-- C4 (amended): for a request identifier containing no path
separator whose trimmed value matches the legacy flat pattern
uuid-restOfFilename, with no known document pointer and a valid default
stage reference, the candidate list is exactly the verbatim identifier
followed by the canonical uuid/restOfFilename form followed by its
nested-legacy sibling, so the canonical form appears before the
nested-legacy form.  (The original claim, quantified over every
identifier whose last path segment matches, fails when the identifier
itself already is the nested-legacy form; see the counterexample.) -/
theorem buildStageCandidates_canonical_pair (SR ident fid rest : Str)
    (hmatch : matchLegacyFlat ident = some (fid, rest))
    (hslash : ('/' : Char) ∉ ident)
    (htrim : jsTrim ident = ident)
    (hSR : sanitizeStageReference SR (some SR) = .ok SR) :
    buildStageCandidates SR none (some ident) none =
      .ok [⟨ident, SR⟩, ⟨fid ++ '/' :: rest, SR⟩,
           ⟨(fid ++ '/' :: rest) ++ '/' :: (fid ++ '-' :: rest), SR⟩] ∧
    List.Sublist
      [Candidate.mk (fid ++ '/' :: rest) SR,
       Candidate.mk ((fid ++ '/' :: rest) ++ '/' :: (fid ++ '-' :: rest)) SR]
      [⟨ident, SR⟩, ⟨fid ++ '/' :: rest, SR⟩,
       ⟨(fid ++ '/' :: rest) ++ '/' :: (fid ++ '-' :: rest), SR⟩] := by
  obtain ⟨hident_eq, ⟨c0, t0, hfid, hhex⟩, hrest_ne⟩ :=
    matchLegacyFlat_spec ident fid rest hmatch
  have hident_ne : ident ≠ [] := by
    rw [hident_eq]
    intro he
    cases fid <;> exact List.noConfusion he
  have hIsE : ident.isEmpty = false := by
    cases ident with
    | nil => exact absurd rfl hident_ne
    | cons a t => rfl
  have hfid_ne : fid ≠ [] := by rw [hfid]; exact List.cons_ne_nil c0 t0
  have hc0ws : isJsWs c0 = false := hexDigit_not_ws c0 hhex
  obtain ⟨clast, hlast⟩ : ∃ c, ident.getLast? = some c := by
    cases hgl : ident.getLast? with
    | none => exact absurd (List.getLast?_eq_none_iff.mp hgl) hident_ne
    | some c => exact ⟨c, rfl⟩
  have hlast_ws : isJsWs clast = false := jsTrim_getLast_not_ws ident htrim clast hlast
  have hlast_rest : rest.getLast? = some clast := by
    rw [hident_eq] at hlast
    rw [← hlast, getLast?_append_cons fid '-' rest hrest_ne]
  have hcanon_head : (fid ++ '/' :: rest).head? = some c0 := by
    rw [hfid]
    rfl
  have htrimCanon : jsTrim (fid ++ '/' :: rest) = fid ++ '/' :: rest := by
    refine jsTrim_eq_self_of _ ?_ ?_
    · intro c hc
      rw [hcanon_head] at hc
      cases Option.some.inj hc
      exact hc0ws
    · intro c hc
      rw [getLast?_append_cons fid '/' rest hrest_ne, hlast_rest] at hc
      cases Option.some.inj hc
      exact hlast_ws
  have hnested_head : ((fid ++ '/' :: rest) ++ '/' :: (fid ++ '-' :: rest)).head? = some c0 := by
    rw [hfid]
    rfl
  have htrimNested : jsTrim ((fid ++ '/' :: rest) ++ '/' :: (fid ++ '-' :: rest)) =
      (fid ++ '/' :: rest) ++ '/' :: (fid ++ '-' :: rest) := by
    refine jsTrim_eq_self_of _ ?_ ?_
    · intro c hc
      rw [hnested_head] at hc
      cases Option.some.inj hc
      exact hc0ws
    · intro c hc
      rw [getLast?_append_cons (fid ++ '/' :: rest) '/' (fid ++ '-' :: rest)
          (by intro he; cases fid <;> exact List.noConfusion he),
        getLast?_append_cons fid '-' rest hrest_ne, hlast_rest] at hc
      cases Option.some.inj hc
      exact hlast_ws
  have hslash_canon : ('/' : Char) ∈ fid ++ '/' :: rest :=
    List.mem_append_right fid (List.mem_cons_self '/' _)
  have hne1 : ¬(fid ++ '/' :: rest) = ident := by
    intro he
    apply hslash
    rw [← he]
    exact hslash_canon
  have hne2 : ¬((fid ++ '/' :: rest) ++ '/' :: (fid ++ '-' :: rest)) = ident := by
    intro he
    apply hslash
    rw [← he]
    exact List.mem_append_right (fid ++ '/' :: rest) (List.mem_cons_self '/' (fid ++ '-' :: rest))
  have hne3 : ¬((fid ++ '/' :: rest) ++ '/' :: (fid ++ '-' :: rest)) = fid ++ '/' :: rest := by
    intro he
    have hlen := congrArg List.length he
    simp [List.length_append] at hlen
  have hCanonIsE : (fid ++ '/' :: rest).isEmpty = false := by
    cases hfe : fid ++ '/' :: rest with
    | nil => exact absurd hfe (by cases fid <;> exact fun hx => List.noConfusion hx)
    | cons a t => rfl
  have hNestedIsE : ((fid ++ '/' :: rest) ++ '/' :: (fid ++ '-' :: rest)).isEmpty = false := by
    cases hfe : (fid ++ '/' :: rest) ++ '/' :: (fid ++ '-' :: rest) with
    | nil =>
      exact absurd hfe (by cases fid <;> exact fun hx => List.noConfusion hx)
    | cons a t => rfl
  have eA1 : addCandidate SR SR (⟨[], []⟩ : ResolverState) (some ident) none =
      .ok ⟨[⟨ident, SR⟩], [candidateKey SR ident]⟩ := by
    unfold addCandidate
    dsimp only [Option.getD]
    rw [htrim]
    simp only [hIsE, Bool.false_eq_true, if_false]
    rw [hSR]
    rfl
  have eA2 : addCandidate SR SR
      (⟨[⟨ident, SR⟩], [candidateKey SR ident]⟩ : ResolverState)
      (some (fid ++ '/' :: rest)) none =
      .ok ⟨[⟨ident, SR⟩, ⟨fid ++ '/' :: rest, SR⟩],
           [candidateKey SR ident, candidateKey SR (fid ++ '/' :: rest)]⟩ := by
    unfold addCandidate
    dsimp only [Option.getD]
    rw [htrimCanon]
    simp only [hCanonIsE, Bool.false_eq_true, if_false]
    rw [hSR]
    have hcont : ([candidateKey SR ident].contains
        (candidateKey SR (fid ++ '/' :: rest))) = false := by
      simp only [List.contains_cons, List.contains_nil, Bool.or_false,
        beq_eq_false_iff_ne, ne_eq]
      intro he
      exact hne1 (candidateKey_inj SR _ _ he)
    simp only [hcont, Bool.false_eq_true, if_false]
    rfl
  have eA3 : addCandidate SR SR
      (⟨[⟨ident, SR⟩, ⟨fid ++ '/' :: rest, SR⟩],
        [candidateKey SR ident, candidateKey SR (fid ++ '/' :: rest)]⟩ : ResolverState)
      (some ((fid ++ '/' :: rest) ++ '/' :: (fid ++ '-' :: rest))) none =
      .ok ⟨[⟨ident, SR⟩, ⟨fid ++ '/' :: rest, SR⟩,
            ⟨(fid ++ '/' :: rest) ++ '/' :: (fid ++ '-' :: rest), SR⟩],
           [candidateKey SR ident, candidateKey SR (fid ++ '/' :: rest),
            candidateKey SR ((fid ++ '/' :: rest) ++ '/' :: (fid ++ '-' :: rest))]⟩ := by
    unfold addCandidate
    dsimp only [Option.getD]
    rw [htrimNested]
    simp only [hNestedIsE, Bool.false_eq_true, if_false]
    rw [hSR]
    have hcont : ([candidateKey SR ident, candidateKey SR (fid ++ '/' :: rest)].contains
        (candidateKey SR ((fid ++ '/' :: rest) ++ '/' :: (fid ++ '-' :: rest)))) = false := by
      simp only [List.contains_cons, List.contains_nil, Bool.or_false,
        Bool.or_eq_false_iff, beq_eq_false_iff_ne, ne_eq]
      constructor
      · intro he
        exact hne2 (candidateKey_inj SR _ _ he)
      · intro he
        exact hne3 (candidateKey_inj SR _ _ he)
    simp only [hcont, Bool.false_eq_true, if_false]
    rfl
  have eLeg : buildLegacyCandidateIdentifier ident none = none := by
    unfold buildLegacyCandidateIdentifier
    simp only [hIsE, Bool.false_eq_true, if_false]
    try dsimp only
    rw [htrim, dropTrailingSlashes_no_slash ident hslash]
    have hj : jsIncludes ['/'] ident = false := by
      rw [Bool.eq_false_iff]
      intro hji
      exact hslash ((jsIncludes_singleton '/' ident).mp hji)
    simp [hj]
  have eTail : extractLegacyTailInfo ident = some (fid, rest) := by
    unfold extractLegacyTailInfo
    simp only [hIsE, Bool.false_eq_true, if_false]
    rw [htrim, splitOnChar_no_sep '/' ident hslash]
    simp [hIsE, hmatch]
  have htru : truthy (some ident) = true := by
    simp only [truthy, Option.getD, Bool.not_eq_true']
    exact hIsE
  have eBlock : resolverRequestBlock SR SR none (some ident) none ⟨[], []⟩ =
      .ok ⟨[⟨ident, SR⟩, ⟨fid ++ '/' :: rest, SR⟩,
            ⟨(fid ++ '/' :: rest) ++ '/' :: (fid ++ '-' :: rest), SR⟩],
           [candidateKey SR ident, candidateKey SR (fid ++ '/' :: rest),
            candidateKey SR ((fid ++ '/' :: rest) ++ '/' :: (fid ++ '-' :: rest))]⟩ := by
    unfold resolverRequestBlock
    rw [if_pos htru]
    dsimp only [Option.getD]
    rw [eA1]
    try dsimp only
    rw [eLeg]
    try dsimp only
    rw [eTail]
    try dsimp only
    unfold addCanonicalVariants
    have hfidE : fid.isEmpty = false := by rw [hfid]; rfl
    have hrestE : rest.isEmpty = false := by
      cases rest with
      | nil => exact absurd rfl hrest_ne
      | cons a t => rfl
    simp only [hfidE, hrestE, Bool.or_false, Bool.false_eq_true, if_false]
    try dsimp only
    rw [eA2]
    try dsimp only
    rw [eA3]
  refine ⟨?_, (List.Sublist.refl _).cons _⟩
  unfold buildStageCandidates
  try dsimp only [Option.bind, Option.or, Option.getD]
  rw [eBlock]
  rfl

/-- Witness for C4 at the spec's example identifier. -/
theorem buildStageCandidates_canonical_pair_witness :
    buildStageCandidates (("@PDFS").toList) none
      (some (("a1b2c3d4-e5f6-7890-abcd-1234567890ab-report.pdf").toList)) none =
      .ok [⟨("a1b2c3d4-e5f6-7890-abcd-1234567890ab-report.pdf").toList, ("@PDFS").toList⟩,
           ⟨("a1b2c3d4-e5f6-7890-abcd-1234567890ab").toList ++ '/' :: ("report.pdf").toList,
             ("@PDFS").toList⟩,
           ⟨(("a1b2c3d4-e5f6-7890-abcd-1234567890ab").toList ++ '/' :: ("report.pdf").toList) ++
               '/' :: (("a1b2c3d4-e5f6-7890-abcd-1234567890ab").toList ++ '-' :: ("report.pdf").toList),
             ("@PDFS").toList⟩] :=
  (buildStageCandidates_canonical_pair (("@PDFS").toList)
    (("a1b2c3d4-e5f6-7890-abcd-1234567890ab-report.pdf").toList)
    (("a1b2c3d4-e5f6-7890-abcd-1234567890ab").toList) (("report.pdf").toList)
    rfl (by decide) rfl rfl).1

/-- C4 counterexample: the identifier that already is the nested-legacy
form has a last path segment matching uuid-restOfFilename, yet the
resolver emits that nested form first (as the verbatim candidate) and
the canonical form only last, so the canonical form does not appear
before the nested-legacy form. -/
theorem buildStageCandidates_order_counterexample :
    extractLegacyTailInfo
      (("a1b2c3d4-e5f6-7890-abcd-1234567890ab/report.pdf/a1b2c3d4-e5f6-7890-abcd-1234567890ab-report.pdf").toList) =
      some (("a1b2c3d4-e5f6-7890-abcd-1234567890ab").toList, ("report.pdf").toList) ∧
    buildStageCandidates (("@PDFS").toList) none
      (some (("a1b2c3d4-e5f6-7890-abcd-1234567890ab/report.pdf/a1b2c3d4-e5f6-7890-abcd-1234567890ab-report.pdf").toList))
      none =
      .ok [⟨("a1b2c3d4-e5f6-7890-abcd-1234567890ab/report.pdf/a1b2c3d4-e5f6-7890-abcd-1234567890ab-report.pdf").toList,
            ("@PDFS").toList⟩,
           ⟨("a1b2c3d4-e5f6-7890-abcd-1234567890ab/report.pdf/a1b2c3d4-e5f6-7890-abcd-1234567890ab-report.pdf/report.pdf-a1b2c3d4-e5f6-7890-abcd-1234567890ab-report.pdf").toList,
            ("@PDFS").toList⟩,
           ⟨("a1b2c3d4-e5f6-7890-abcd-1234567890ab/report.pdf").toList, ("@PDFS").toList⟩] ∧
    ¬ List.Sublist
        [Candidate.mk (("a1b2c3d4-e5f6-7890-abcd-1234567890ab/report.pdf").toList) (("@PDFS").toList),
         Candidate.mk
           (("a1b2c3d4-e5f6-7890-abcd-1234567890ab/report.pdf/a1b2c3d4-e5f6-7890-abcd-1234567890ab-report.pdf").toList)
           (("@PDFS").toList)]
        [⟨("a1b2c3d4-e5f6-7890-abcd-1234567890ab/report.pdf/a1b2c3d4-e5f6-7890-abcd-1234567890ab-report.pdf").toList,
          ("@PDFS").toList⟩,
         ⟨("a1b2c3d4-e5f6-7890-abcd-1234567890ab/report.pdf/a1b2c3d4-e5f6-7890-abcd-1234567890ab-report.pdf/report.pdf-a1b2c3d4-e5f6-7890-abcd-1234567890ab-report.pdf").toList,
          ("@PDFS").toList⟩,
         ⟨("a1b2c3d4-e5f6-7890-abcd-1234567890ab/report.pdf").toList, ("@PDFS").toList⟩] := by
  refine ⟨rfl, rfl, by decide⟩
